import Mathlib

/-!
# Verification of `tts_shm_reader.py`

Shallow embedding of the price-alert text-to-speech reader.  Python floats
(prices, timestamps, audio samples) are modelled as rationals `ℚ`; machine
time `time.time()` is an explicit parameter; the generator returned by the
TTS pipeline is modelled as a list of items, each either a chunk of samples
or a raised exception; `threading.Event` tokens are modelled by generation
numbers, and whether the current token is observed set at loop iteration
`i` of a worker is a Boolean function of `i`.
-/

set_option autoImplicit false

namespace TTS

/-- `BUFFER_SIZE = 32` (shared-memory region size in bytes). -/
def BUFFER_SIZE : Nat := 32

/-- `THRESHOLD_VALUE = 12.5`. -/
def THRESHOLD_VALUE : ℚ := 25 / 2

/-- `SAMPLE_RATE = 24000`. -/
def SAMPLE_RATE : Nat := 24000

/-- `DEBOUNCE_SECONDS = 0.3`. -/
def DEBOUNCE_SECONDS : ℚ := 3 / 10

/-- `FADE_OUT_MS = 300`. -/
def FADE_OUT_MS : Nat := 300

/-- `int(SAMPLE_RATE * FADE_OUT_MS / 1000)` — the cap on the number of faded
samples; `24000 * 300 / 1000 = 7200` exactly, so the Python float division and
truncation agree with natural-number division here. -/
def fadeSampleCap : Nat := SAMPLE_RATE * FADE_OUT_MS / 1000

/-- The Python `round` builtin (round half to even), on rationals. -/
def roundHalfEven (q : ℚ) : ℤ :=
  if q - (⌊q⌋ : ℚ) < 1 / 2 then ⌊q⌋
  else if 1 / 2 < q - (⌊q⌋ : ℚ) then ⌊q⌋ + 1
  else if ⌊q⌋ % 2 = 0 then ⌊q⌋ else ⌊q⌋ + 1

/-- `np.linspace(a, b, num)`: `num` evenly spaced points from `a` to `b`,
both endpoints included when `num ≥ 2`; `[a]` when `num = 1`; `[]` when
`num = 0`. -/
def linspace (a b : ℚ) (num : Nat) : List ℚ :=
  if num = 1 then [a]
  else (List.range num).map (fun i : Nat => a + (b - a) * (i : ℚ) / ((num : ℚ) - 1))

/-- `block[:len(curve)] *= curve`: multiply the samples of `block` pointwise
by `curve` as long as `curve` lasts, leave the rest unchanged. -/
def fadeMul : List ℚ → List ℚ → List ℚ
  | _, [] => []
  | [], bs => bs
  | c :: cs, b :: bs => (b * c) :: fadeMul cs bs

/-- The fade applied by `SpeechEngine._fade_and_write` when
`cancel_triggered` is true: `fade_samples = min(len(block), cap)` samples are
scaled by `np.linspace(1.0, 0.0, fade_samples)`; the rest of the block is
unchanged.  (The source guards the multiply with `if fade_samples > 0`,
which is a no-op difference: multiplying by an empty curve changes
nothing.) -/
def fadeBlock (block : List ℚ) : List ℚ :=
  fadeMul (linspace 1 0 (min block.length fadeSampleCap)) block

/-- `SpeechEngine._fade_and_write`: returns the samples written to the
stream and the Boolean result of the Python function (`True` exactly when
the fade path was taken). -/
def fade_and_write (block : List ℚ) (cancel_triggered : Bool) :
    List ℚ × Bool :=
  if cancel_triggered then (fadeBlock block, true) else (block, false)

/-- One item pulled from the synthesis generator (`self.pipeline(text, …)`):
either an audio chunk (already converted to a float array) or an exception
raised while producing the next item. -/
inductive GenItem where
  | chunk (c : List ℚ)
  | raiseErr
deriving DecidableEq

/-- The chunk loop of `SpeechEngine._stream_tts` (lines 75–82).  `cancelAt i`
tells whether `cancel_event.is_set()` returns true when loop iteration `i`
reaches that check.  Returns the chunks written to the stream, in order, and
whether the generator raised (the exception is caught and logged by the
surrounding `try`/`except`, so the worker still terminates normally). -/
def workerChunks (cancelAt : Nat → Bool) : Nat → List GenItem → List (List ℚ) × Bool
  | _, [] => ([], false)
  | _, GenItem.raiseErr :: _ => ([], true)
  | i, GenItem.chunk c :: rest =>
    if c.length = 0 then workerChunks cancelAt (i + 1) rest
    else if cancelAt i then ([(fade_and_write c true).1], false)
    else
      let r := workerChunks cancelAt (i + 1) rest
      ((fade_and_write c false).1 :: r.1, r.2)

/-- `SpeechEngine._stream_tts` (lines 70–84): writes the lead-in (when
present and non-empty) via `_fade_and_write(…, cancel_triggered=False)`,
then runs the chunk loop. -/
def workerRun (leadin : Option (List ℚ)) (items : List GenItem)
    (cancelAt : Nat → Bool) : List (List ℚ) × Bool :=
  let r := workerChunks cancelAt 0 items
  match leadin with
  | some l => if 0 < l.length then ((fade_and_write l false).1 :: r.1, r.2) else r
  | none => r

/-- The synchronous first-checkpoint announcement of `main` (line 128):
`_stream_tts` invoked directly with a freshly created `threading.Event()`
that is stored nowhere, so nothing else holds a reference to it and
`is_set()` is `False` at every chunk boundary. -/
def syncAnnounce (leadin : Option (List ℚ)) (items : List GenItem) :
    List (List ℚ) × Bool :=
  workerRun leadin items (fun _ => false)

/-- The mutable state of `SpeechEngine` that `say` touches:
`_last_alert_time`, whether `_current_thread` exists and is alive, and the
identity of `_cancel_event`, modelled as a generation number (each
`threading.Event()` created by `say` is a fresh object). -/
structure Coordinator where
  lastAlertTime : ℚ
  workerAlive : Bool
  tokenGen : Nat
deriving DecidableEq

/-- Observable actions of `SpeechEngine.say`, in program order. -/
inductive SayEvent where
  | setCancel (gen : Nat)
  | spawnWorker (gen : Nat) (text : String)
deriving DecidableEq

/-- `SpeechEngine.say` (lines 86–99).  `now` is the value of `time.time()`.
If the debounce gate drops the call, the state is returned unchanged and no
event happens.  Otherwise the timestamp is recorded, and under `_lock`: the
old token is set iff a worker is alive, a fresh token (next generation) is
installed, and a new worker is spawned with that token. -/
def say (st : Coordinator) (now : ℚ) (text : String) (force : Bool) :
    Coordinator × List SayEvent :=
  if force = false ∧ now - st.lastAlertTime < DEBOUNCE_SECONDS then (st, [])
  else
    let cancelEvs := if st.workerAlive then [SayEvent.setCancel st.tokenGen] else []
    ({ lastAlertTime := now, workerAlive := true, tokenGen := st.tokenGen + 1 },
      cancelEvs ++ [SayEvent.spawnWorker (st.tokenGen + 1) text])

/-- Whether a `SayEvent` is a worker spawn. -/
def SayEvent.isSpawn : SayEvent → Bool
  | SayEvent.spawnWorker _ _ => true
  | _ => false

/-- Outcome of `float(raw.decode("utf-8"))`: a price, or a `ValueError`
(`UnicodeDecodeError` is a subclass of `ValueError`, and `float` raises
`ValueError` on a non-numeric string, so these are the only outcomes). -/
inductive ParseOutcome where
  | ok (price : ℚ)
  | valueError
deriving DecidableEq

/-- State of the `main` loop: `checkpoint_price` and the speech engine. -/
structure MainState where
  checkpoint : Option ℚ
  engine : Coordinator
deriving DecidableEq

/-- Observable actions of one `main`-loop iteration. -/
inductive MainEvent where
  | announce (text : String)
  | alert (text : String)
  | engineEv (e : SayEvent)
  | logSample
deriving DecidableEq

/-- One iteration of the `main` loop body (lines 117–143), after the wake on
the pipe. `parsed` is the outcome of decoding the region payload; on
`ValueError` the iteration is a no-op (`continue`).  On the first sample the
checkpoint is quantized and announced synchronously via `_stream_tts`
(see `syncAnnounce`), leaving the engine untouched.  Later samples compare
`price - checkpoint` against the threshold and go through `say`. -/
def mainStep (st : MainState) (now : ℚ) (parsed : ParseOutcome) :
    MainState × List MainEvent :=
  match parsed with
  | ParseOutcome.valueError => (st, [])
  | ParseOutcome.ok price =>
    match st.checkpoint with
    | none =>
      let cp : ℚ := (roundHalfEven (price / THRESHOLD_VALUE) : ℚ) * THRESHOLD_VALUE
      let text := "Starting price checkpoint: " ++ toString (roundHalfEven cp)
      ({ checkpoint := some cp, engine := st.engine }, [MainEvent.announce text])
    | some cp =>
      let change := price - cp
      if THRESHOLD_VALUE ≤ change then
        let text := "up to " ++ toString (roundHalfEven price)
        let r := say st.engine now text false
        ({ checkpoint := some price, engine := r.1 },
          MainEvent.alert text :: r.2.map MainEvent.engineEv)
      else if change ≤ -THRESHOLD_VALUE then
        let text := "down to " ++ toString (roundHalfEven price)
        let r := say st.engine now text false
        ({ checkpoint := some price, engine := r.1 },
          MainEvent.alert text :: r.2.map MainEvent.engineEv)
      else (st, [MainEvent.logSample])

/-- Startup check of `main` (lines 103–106): a missing shared-memory
backing object raises `FileNotFoundError` before the loop is entered; a
missing FIFO is created, not an error. -/
def startup (shmExists : Bool) : Except String Unit :=
  if shmExists then Except.ok ()
  else Except.error "Shared memory not found"

/-- The canonical lead-in phrases passed to `_build_prefix_cache`. -/
def PREFIX_PHRASES : List String :=
  ["Starting price checkpoint", "up to", "down to"]

/-- `arr[: min(len(arr), 2400)]`. -/
def truncateChunk (arr : List ℚ) : List ℚ := arr.take (min arr.length 2400)

/-- `SpeechEngine._build_prefix_cache` (lines 40–50): for each phrase, the
first generator item is synthesized (`synth`), truncated and stored under
the phrase; a failure is caught, logged, and the loop moves on. -/
def buildPrefixCache (synth : String → Except String (List ℚ)) :
    List String → List (String × List ℚ)
  | [] => []
  | p :: rest =>
    match synth p with
    | Except.ok arr => (p, truncateChunk arr) :: buildPrefixCache synth rest
    | Except.error _ => buildPrefixCache synth rest

/-- C1: every call to `say` that passes the gate records its arrival time as
the last-invocation timestamp; a non-forced call arriving within
`DEBOUNCE_SECONDS` of the last recorded arrival is dropped entirely (state
unchanged, no cancellation event, no spawn event); and two non-forced calls
less than the debounce interval apart (the first passing the gate) spawn
exactly one worker between them. -/
-- Basic facts about `linspace` and `fadeMul`.

theorem linspace_length (a b : ℚ) (num : Nat) :
    (linspace a b num).length = num := by
  unfold linspace
  split
  · simp [*]
  · simp

theorem linspace_getD (a b : ℚ) (num : Nat) (i : Nat) (hi : i < num)
    (h2 : 2 ≤ num) :
    (linspace a b num).getD i 0 = a + (b - a) * (i : ℚ) / ((num : ℚ) - 1) := by
  unfold linspace
  rw [if_neg (by omega)]
  rw [List.getD_eq_getElem?_getD]
  rw [List.getElem?_map, List.getElem?_range hi]
  rfl

theorem fadeMul_length (cs bs : List ℚ) (h : cs.length ≤ bs.length) :
    (fadeMul cs bs).length = bs.length := by
  induction cs generalizing bs with
  | nil => cases bs <;> rfl
  | cons c cs ih =>
    cases bs with
    | nil => simp at h
    | cons b bs =>
      simp only [fadeMul, List.length_cons]
      rw [ih bs (by simpa using h)]

theorem fadeMul_getD_lt (cs bs : List ℚ) (i : Nat) (hi : i < cs.length)
    (hib : i < bs.length) :
    (fadeMul cs bs).getD i 0 = bs.getD i 0 * cs.getD i 0 := by
  induction cs generalizing bs i with
  | nil => simp at hi
  | cons c cs ih =>
    cases bs with
    | nil => simp at hib
    | cons b bs =>
      cases i with
      | zero => rfl
      | succ n =>
        simp only [fadeMul, List.getD_cons_succ]
        exact ih bs n (by simpa using hi) (by simpa using hib)

theorem fadeMul_getD_ge (cs bs : List ℚ) (i : Nat) (hi : cs.length ≤ i) :
    (fadeMul cs bs).getD i 0 = bs.getD i 0 := by
  induction cs generalizing bs i with
  | nil => cases bs <;> rfl
  | cons c cs ih =>
    cases bs with
    | nil => rfl
    | cons b bs =>
      cases i with
      | zero => simp at hi
      | succ n =>
        simp only [fadeMul, List.getD_cons_succ]
        exact ih bs n (by simpa using hi)

theorem say_drop (st : Coordinator) (now : ℚ) (text : String)
    (h : now - st.lastAlertTime < DEBOUNCE_SECONDS) :
    say st now text false = (st, []) := by
  unfold say
  rw [if_pos ⟨rfl, h⟩]

theorem say_pass (st : Coordinator) (now : ℚ) (text : String) (force : Bool)
    (h : ¬(force = false ∧ now - st.lastAlertTime < DEBOUNCE_SECONDS)) :
    say st now text force
      = ({ lastAlertTime := now, workerAlive := true,
           tokenGen := st.tokenGen + 1 },
         (if st.workerAlive = true then [SayEvent.setCancel st.tokenGen]
          else []) ++ [SayEvent.spawnWorker (st.tokenGen + 1) text]) := by
  unfold say
  rw [if_neg h]

theorem C1_debounce_gate :
    (∀ st now text, now - st.lastAlertTime < DEBOUNCE_SECONDS →
      say st now text false = (st, []))
    ∧ (∀ st now text force,
        ¬(force = false ∧ now - st.lastAlertTime < DEBOUNCE_SECONDS) →
        (say st now text force).1.lastAlertTime = now)
    ∧ (∀ st t1 t2 text1 text2,
        DEBOUNCE_SECONDS ≤ t1 - st.lastAlertTime →
        t2 - t1 < DEBOUNCE_SECONDS →
        say (say st t1 text1 false).1 t2 text2 false
            = ((say st t1 text1 false).1, [])
        ∧ (((say st t1 text1 false).2
              ++ (say (say st t1 text1 false).1 t2 text2 false).2).filter
                SayEvent.isSpawn).length = 1) := by
  refine ⟨fun st now text h => say_drop st now text h, ?_, ?_⟩
  · intro st now text force h
    rw [say_pass st now text force h]
  · intro st t1 t2 text1 text2 h1 h2
    have hs1 := say_pass st t1 text1 false
      (by rintro ⟨-, hlt⟩; exact absurd h1 (not_le.mpr hlt))
    simp only [hs1]
    have hs2 := say_drop
      ({ lastAlertTime := t1, workerAlive := true,
         tokenGen := st.tokenGen + 1 } : Coordinator) t2 text2 h2
    simp only [hs2]
    refine ⟨trivial, ?_⟩
    cases hA : st.workerAlive <;>
      simp [SayEvent.isSpawn, List.filter, hA]

/-- Witness for C1 at concrete inputs: a call at `t = 1/10` after a recorded
call at `t = 0` is dropped; a passing call records its time; two calls
`1/10` apart spawn one worker. -/
theorem C1_debounce_gate_witness :
    say ⟨0, false, 0⟩ (1 / 10) "up to 10" false = (⟨0, false, 0⟩, [])
    ∧ (say ⟨0, false, 0⟩ 1 "up to 10" false).1.lastAlertTime = 1
    ∧ (((say (⟨0, false, 0⟩ : Coordinator) 1 "a" false).2
          ++ (say (say (⟨0, false, 0⟩ : Coordinator) 1 "a" false).1 (11 / 10)
                "b" false).2).filter SayEvent.isSpawn).length = 1 := by
  obtain ⟨hA, hB, hC⟩ := C1_debounce_gate
  refine ⟨hA ⟨0, false, 0⟩ (1 / 10) "up to 10" ?_,
          hB ⟨0, false, 0⟩ 1 "up to 10" false ?_,
          (hC ⟨0, false, 0⟩ 1 (11 / 10) "a" "b" ?_ ?_).2⟩
  · norm_num [DEBOUNCE_SECONDS]
  · rintro ⟨-, hlt⟩
    norm_num [DEBOUNCE_SECONDS] at hlt
  · norm_num [DEBOUNCE_SECONDS]
  · norm_num [DEBOUNCE_SECONDS]

/-- C4: when a `say` call passes the gate while the previous worker is
alive, the event sequence is exactly `setCancel` of the old token followed
by `spawnWorker` of the fresh token (set-before-spawn ordering, performed
under `_lock`); the fresh token is a new generation, distinct from the old
one, and it is installed as the single current token of the coordinator.
Setting is modelled as an unconditional event: it never blocks. -/
theorem C4_cancel_before_spawn :
    ∀ st now text force,
      ¬(force = false ∧ now - st.lastAlertTime < DEBOUNCE_SECONDS) →
      st.workerAlive = true →
      say st now text force
          = ({ lastAlertTime := now, workerAlive := true,
               tokenGen := st.tokenGen + 1 },
             [SayEvent.setCancel st.tokenGen,
              SayEvent.spawnWorker (st.tokenGen + 1) text])
      ∧ st.tokenGen + 1 ≠ st.tokenGen := by
  intro st now text force hpass halive
  refine ⟨?_, by omega⟩
  rw [say_pass st now text force hpass, halive]
  rfl

/-- Witness for C4: a forced call with a live worker of generation 3. -/
theorem C4_cancel_before_spawn_witness :
    say ⟨0, true, 3⟩ (1 / 100) "x" true
        = (⟨1 / 100, true, 4⟩,
           [SayEvent.setCancel 3, SayEvent.spawnWorker 4 "x"]) := by
  exact (C4_cancel_before_spawn ⟨0, true, 3⟩ (1 / 100) "x" true
    (by rintro ⟨h, -⟩; cases h) rfl).1

theorem abs_sub_roundHalfEven_le_half (q : ℚ) :
    |q - (roundHalfEven q : ℚ)| ≤ 1 / 2 := by
  have h0 : (⌊q⌋ : ℚ) ≤ q := Int.floor_le q
  have h1 : q < ⌊q⌋ + 1 := Int.lt_floor_add_one q
  unfold roundHalfEven
  by_cases hlt : q - (⌊q⌋ : ℚ) < 1 / 2
  · rw [if_pos hlt, abs_of_nonneg (by linarith)]
    linarith
  · rw [if_neg hlt]
    by_cases hgt : (1 : ℚ) / 2 < q - (⌊q⌋ : ℚ)
    · rw [if_pos hgt]
      push_cast
      rw [abs_of_nonpos (by linarith)]
      linarith
    · rw [if_neg hgt]
      have heq : q - (⌊q⌋ : ℚ) = 1 / 2 := le_antisymm (not_lt.mp hgt) (not_lt.mp hlt)
      by_cases hev : ⌊q⌋ % 2 = 0
      · rw [if_pos hev, abs_of_nonneg (by linarith)]
        linarith
      · rw [if_neg hev]
        push_cast
        rw [abs_of_nonpos (by linarith)]
        linarith

theorem roundHalfEven_nearest (q : ℚ) (k : ℤ) :
    |q - (roundHalfEven q : ℚ)| ≤ |q - (k : ℚ)| := by
  rcases eq_or_ne k (roundHalfEven q) with h | h
  · rw [h]
  · have hhalf := abs_sub_roundHalfEven_le_half q
    have hne : roundHalfEven q - k ≠ 0 := sub_ne_zero.mpr (Ne.symm h)
    have hint : (1 : ℤ) ≤ |roundHalfEven q - k| := Int.one_le_abs hne
    have hq : (1 : ℚ) ≤ |(roundHalfEven q : ℚ) - (k : ℚ)| := by
      have h2 : ((1 : ℤ) : ℚ) ≤ ((|roundHalfEven q - k| : ℤ) : ℚ) := by
        exact_mod_cast hint
      push_cast at h2
      exact h2
    have tri : |(roundHalfEven q : ℚ) - (k : ℚ)|
        ≤ |(roundHalfEven q : ℚ) - q| + |q - (k : ℚ)| :=
      abs_sub_le _ _ _
    rw [abs_sub_comm ((roundHalfEven q : ℚ)) q] at tri
    linarith

theorem mainStep_first (st : MainState) (now price : ℚ)
    (h : st.checkpoint = none) :
    mainStep st now (ParseOutcome.ok price)
      = ({ checkpoint :=
             some ((roundHalfEven (price / THRESHOLD_VALUE) : ℚ) * THRESHOLD_VALUE),
           engine := st.engine },
         [MainEvent.announce ("Starting price checkpoint: "
            ++ toString (roundHalfEven
                ((roundHalfEven (price / THRESHOLD_VALUE) : ℚ) * THRESHOLD_VALUE)))]) := by
  simp only [mainStep, h]

theorem mainStep_up (st : MainState) (now price cp : ℚ)
    (h : st.checkpoint = some cp) (hup : THRESHOLD_VALUE ≤ price - cp) :
    mainStep st now (ParseOutcome.ok price)
      = ({ checkpoint := some price,
           engine := (say st.engine now
              ("up to " ++ toString (roundHalfEven price)) false).1 },
         MainEvent.alert ("up to " ++ toString (roundHalfEven price))
           :: (say st.engine now
                ("up to " ++ toString (roundHalfEven price)) false).2.map
                  MainEvent.engineEv) := by
  simp only [mainStep, h]
  rw [if_pos hup]

theorem mainStep_down (st : MainState) (now price cp : ℚ)
    (h : st.checkpoint = some cp) (hup : ¬THRESHOLD_VALUE ≤ price - cp)
    (hdown : price - cp ≤ -THRESHOLD_VALUE) :
    mainStep st now (ParseOutcome.ok price)
      = ({ checkpoint := some price,
           engine := (say st.engine now
              ("down to " ++ toString (roundHalfEven price)) false).1 },
         MainEvent.alert ("down to " ++ toString (roundHalfEven price))
           :: (say st.engine now
                ("down to " ++ toString (roundHalfEven price)) false).2.map
                  MainEvent.engineEv) := by
  simp only [mainStep, h]
  rw [if_neg hup, if_pos hdown]

theorem mainStep_noalert (st : MainState) (now price cp : ℚ)
    (h : st.checkpoint = some cp) (hup : ¬THRESHOLD_VALUE ≤ price - cp)
    (hdown : ¬price - cp ≤ -THRESHOLD_VALUE) :
    mainStep st now (ParseOutcome.ok price) = (st, [MainEvent.logSample]) := by
  simp only [mainStep, h]
  rw [if_neg hup, if_neg hdown]

/-- C5: once the checkpoint is set, a successfully parsed sample changes it
if and only if `|price - checkpoint| ≥ THRESHOLD_VALUE`, and when it
changes the new checkpoint is exactly the raw price. -/
theorem C5_checkpoint_iff :
    ∀ st cp price now, st.checkpoint = some cp →
      (((mainStep st now (ParseOutcome.ok price)).1.checkpoint ≠ st.checkpoint)
        ↔ THRESHOLD_VALUE ≤ |price - cp|)
      ∧ (THRESHOLD_VALUE ≤ |price - cp| →
          (mainStep st now (ParseOutcome.ok price)).1.checkpoint = some price) := by
  intro st cp price now h
  have hT : (0 : ℚ) < THRESHOLD_VALUE := by norm_num [THRESHOLD_VALUE]
  have habs : THRESHOLD_VALUE ≤ |price - cp|
      ↔ (THRESHOLD_VALUE ≤ price - cp ∨ price - cp ≤ -THRESHOLD_VALUE) := by
    rw [le_abs]
    constructor
    · rintro (h1 | h1)
      · exact Or.inl h1
      · right; linarith
    · rintro (h1 | h1)
      · exact Or.inl h1
      · right; linarith
  by_cases hup : THRESHOLD_VALUE ≤ price - cp
  · rw [mainStep_up st now price cp h hup]
    have hne : price ≠ cp := by
      intro he
      rw [he] at hup
      simp at hup
      linarith
    constructor
    · constructor
      · intro _
        exact habs.mpr (Or.inl hup)
      · intro _
        rw [h]
        show some price ≠ some cp
        exact fun hc => hne (Option.some.inj hc)
    · intro _
      rfl
  · by_cases hdown : price - cp ≤ -THRESHOLD_VALUE
    · rw [mainStep_down st now price cp h hup hdown]
      have hne : price ≠ cp := by
        intro he
        rw [he] at hdown
        simp at hdown
        linarith
      constructor
      · constructor
        · intro _
          exact habs.mpr (Or.inr hdown)
        · intro _
          rw [h]
          show some price ≠ some cp
          exact fun hc => hne (Option.some.inj hc)
      · intro _
        rfl
    · rw [mainStep_noalert st now price cp h hup hdown]
      have hno : ¬THRESHOLD_VALUE ≤ |price - cp| := by
        rw [habs]
        tauto
      exact ⟨⟨fun hne => absurd rfl hne, fun hx => absurd hx hno⟩,
             fun hx => absurd hx hno⟩

/-- Witness for C5: checkpoint 1500, sample 1515 (delta 15 ≥ 12.5). -/
theorem C5_checkpoint_iff_witness :
    ((mainStep ⟨some 1500, ⟨0, false, 0⟩⟩ 10 (ParseOutcome.ok 1515)).1.checkpoint
        ≠ (⟨some 1500, ⟨0, false, 0⟩⟩ : MainState).checkpoint)
    ∧ (mainStep ⟨some 1500, ⟨0, false, 0⟩⟩ 10
        (ParseOutcome.ok 1515)).1.checkpoint = some 1515 := by
  have h := C5_checkpoint_iff ⟨some 1500, ⟨0, false, 0⟩⟩ 1500 1515 10 rfl
  have habs : THRESHOLD_VALUE ≤ |(1515 : ℚ) - 1500| := by
    norm_num [THRESHOLD_VALUE]
  exact ⟨h.1.mpr habs, h.2 habs⟩

/-- C6: the first successfully parsed sample sets the checkpoint to
`round(price / THRESHOLD_VALUE) * THRESHOLD_VALUE`, the multiple of the
threshold nearest to the price (so the raw price only when the price is
itself a multiple); the checkpoint phrase embedding the quantized value is
emitted as a synchronous announcement, with the coordinator (debounce
timestamp, worker slot, token) untouched. -/
theorem C6_first_sample :
    ∀ st price now, st.checkpoint = none →
      (mainStep st now (ParseOutcome.ok price)).1.checkpoint
          = some ((roundHalfEven (price / THRESHOLD_VALUE) : ℚ) * THRESHOLD_VALUE)
      ∧ (∀ k : ℤ,
          |price - (roundHalfEven (price / THRESHOLD_VALUE) : ℚ) * THRESHOLD_VALUE|
            ≤ |price - (k : ℚ) * THRESHOLD_VALUE|)
      ∧ (mainStep st now (ParseOutcome.ok price)).1.engine = st.engine
      ∧ (mainStep st now (ParseOutcome.ok price)).2
          = [MainEvent.announce ("Starting price checkpoint: "
              ++ toString (roundHalfEven
                  ((roundHalfEven (price / THRESHOLD_VALUE) : ℚ) * THRESHOLD_VALUE)))]
      ∧ ((∀ k : ℤ, price ≠ (k : ℚ) * THRESHOLD_VALUE) →
          (mainStep st now (ParseOutcome.ok price)).1.checkpoint ≠ some price) := by
  intro st price now h
  rw [mainStep_first st now price h]
  have hT : (0 : ℚ) < THRESHOLD_VALUE := by norm_num [THRESHOLD_VALUE]
  have hTne : THRESHOLD_VALUE ≠ 0 := ne_of_gt hT
  refine ⟨rfl, ?_, rfl, rfl, ?_⟩
  · intro k
    have hmain := roundHalfEven_nearest (price / THRESHOLD_VALUE) k
    have e1 : price - (roundHalfEven (price / THRESHOLD_VALUE) : ℚ) * THRESHOLD_VALUE
        = THRESHOLD_VALUE
            * (price / THRESHOLD_VALUE - (roundHalfEven (price / THRESHOLD_VALUE) : ℚ)) := by
      field_simp
      ring
    have e2 : price - (k : ℚ) * THRESHOLD_VALUE
        = THRESHOLD_VALUE * (price / THRESHOLD_VALUE - (k : ℚ)) := by
      field_simp
      ring
    rw [e1, e2, abs_mul, abs_mul]
    exact mul_le_mul_of_nonneg_left hmain (abs_nonneg _)
  · intro hk hc
    exact hk (roundHalfEven (price / THRESHOLD_VALUE)) (Option.some.inj hc).symm

/-- Witness for C6: first sample 1497 (not a multiple of 12.5) quantizes to
1500, not 1497. -/
theorem C6_first_sample_witness :
    (mainStep ⟨none, ⟨0, false, 0⟩⟩ 0 (ParseOutcome.ok 1497)).1.checkpoint
        = some 1500
    ∧ (mainStep ⟨none, ⟨0, false, 0⟩⟩ 0 (ParseOutcome.ok 1497)).1.checkpoint
        ≠ some 1497 := by
  have h := C6_first_sample ⟨none, ⟨0, false, 0⟩⟩ 1497 0 rfl
  constructor
  · rw [h.1]
    norm_num [roundHalfEven, THRESHOLD_VALUE]
  · refine h.2.2.2.2 ?_
    intro k hk
    rw [THRESHOLD_VALUE] at hk
    have h1 : (2994 : ℚ) = (k : ℚ) * 25 := by linarith
    have h2 : (2994 : ℤ) = k * 25 := by exact_mod_cast h1
    omega

/-- C8: a wake whose payload does not decode as a float literal is skipped
silently — the whole state (checkpoint and coordinator) is unchanged, no
alert or any other event is produced, and the loop continues (the
`ValueError` is caught by the `try`/`except`, so nothing propagates). -/
theorem C8_unparseable_skip :
    ∀ st now, mainStep st now ParseOutcome.valueError = (st, []) :=
  fun _ _ => rfl

theorem workerChunks_uncanceled (chunks : List (List ℚ)) (k : Nat) :
    workerChunks (fun _ => false) k (chunks.map GenItem.chunk)
      = (chunks.filter (fun c => !c.isEmpty), false) := by
  induction chunks generalizing k with
  | nil => rfl
  | cons c rest ih =>
    simp only [List.map_cons, workerChunks, Bool.false_eq_true, if_false]
    by_cases hc : c.length = 0
    · have hce : c = [] := List.length_eq_zero.mp hc
      subst hce
      rw [if_pos hc, ih]
      rfl
    · rw [if_neg hc, ih]
      have hne : c.isEmpty = false := by
        cases c
        · exact absurd rfl hc
        · rfl
      simp [fade_and_write, List.filter, hne]

theorem workerRun_none (items : List GenItem) (cAt : Nat → Bool) :
    workerRun none items cAt = workerChunks cAt 0 items := rfl

theorem workerRun_some_nil (items : List GenItem) (cAt : Nat → Bool) :
    workerRun (some []) items cAt = workerChunks cAt 0 items := rfl

theorem workerRun_some (l : List ℚ) (items : List GenItem) (cAt : Nat → Bool)
    (hl : 0 < l.length) :
    workerRun (some l) items cAt
      = (l :: (workerChunks cAt 0 items).1, (workerChunks cAt 0 items).2) := by
  simp only [workerRun]
  rw [if_pos hl]
  rfl

/-- C10: the synchronous first-checkpoint announcement leaves every field of
the coordinator unchanged (timestamp, worker slot, current token) — hence
any later `say` call behaves exactly as if the announcement had never
happened, so it is neither debounced against the arrival of the announcement nor
able to reach the token of the announcement — and the announcement runs
`_stream_tts` with a fresh token that is never stored and never set, so its
playback is the full, never-faded chunk sequence. -/
theorem C10_sync_announce_frame :
    ∀ st price now, st.checkpoint = none →
      (mainStep st now (ParseOutcome.ok price)).1.engine = st.engine
      ∧ (∀ t text f,
          say (mainStep st now (ParseOutcome.ok price)).1.engine t text f
            = say st.engine t text f)
      ∧ (∀ e, MainEvent.engineEv e ∉ (mainStep st now (ParseOutcome.ok price)).2)
      ∧ (∀ (l : List ℚ) (chunks : List (List ℚ)), 0 < l.length →
          (syncAnnounce (some l) (chunks.map GenItem.chunk)).1
            = l :: chunks.filter (fun c => !c.isEmpty))
      ∧ (∀ chunks : List (List ℚ),
          (syncAnnounce none (chunks.map GenItem.chunk)).1
            = chunks.filter (fun c => !c.isEmpty)) := by
  intro st price now h
  rw [mainStep_first st now price h]
  refine ⟨rfl, fun t text f => rfl, ?_, ?_, ?_⟩
  · intro e he
    simp at he
  · intro l chunks hl
    unfold syncAnnounce
    rw [workerRun_some l _ _ hl, workerChunks_uncanceled chunks 0]
  · intro chunks
    unfold syncAnnounce
    rw [workerRun_none, workerChunks_uncanceled chunks 0]

/-- Witness for C10: after a first sample the engine state is untouched, and
a concrete announcement plays lead-in plus all non-empty chunks unfaded. -/
theorem C10_sync_announce_frame_witness :
    (mainStep ⟨none, ⟨0, false, 0⟩⟩ 0 (ParseOutcome.ok 1)).1.engine
        = (⟨0, false, 0⟩ : Coordinator)
    ∧ (syncAnnounce (some [5]) ([[2], []].map GenItem.chunk)).1 = [[5], [2]] := by
  have h := C10_sync_announce_frame ⟨none, ⟨0, false, 0⟩⟩ 1 0 rfl
  refine ⟨h.1, ?_⟩
  rw [h.2.2.2.1 [5] [[2], []] (by norm_num)]
  rfl

/-- C2: when cancellation is observed at a chunk of length `L`, the fade
scales exactly the first `min(L, SAMPLE_RATE * FADE_OUT_MS / 1000)` samples
by the `np.linspace(1.0, 0.0, fadeSamples)` ramp — whose value at position
`i` is `1 - i/(fadeSamples-1)`, hence `1.0` at the start, `0.0` at the last
faded sample, evenly spaced — leaves every later sample at its original
value, and still writes the whole chunk (same length); a chunk written with
`cancel_triggered = False` is completely unmodified. -/
theorem C2_fade_curve :
    ∀ block : List ℚ,
      (fadeBlock block).length = block.length
      ∧ (∀ i, min block.length fadeSampleCap ≤ i →
          (fadeBlock block).getD i 0 = block.getD i 0)
      ∧ (2 ≤ min block.length fadeSampleCap →
          (∀ i, i < min block.length fadeSampleCap →
            (fadeBlock block).getD i 0
              = block.getD i 0
                  * (1 - (i : ℚ)
                      / (((min block.length fadeSampleCap : ℕ) : ℚ) - 1)))
          ∧ (fadeBlock block).getD 0 0 = block.getD 0 0 * 1
          ∧ (fadeBlock block).getD (min block.length fadeSampleCap - 1) 0
              = block.getD (min block.length fadeSampleCap - 1) 0 * 0)
      ∧ (min block.length fadeSampleCap = 1 →
          (fadeBlock block).getD 0 0 = block.getD 0 0 * 1)
      ∧ fade_and_write block false = (block, false) := by
  intro block
  have hlen : (linspace 1 0 (min block.length fadeSampleCap)).length
      = min block.length fadeSampleCap := linspace_length _ _ _
  have hfsle : min block.length fadeSampleCap ≤ block.length := min_le_left _ _
  refine ⟨?_, ?_, ?_, ?_, rfl⟩
  · unfold fadeBlock
    exact fadeMul_length _ _ (by rw [hlen]; exact hfsle)
  · intro i hi
    unfold fadeBlock
    exact fadeMul_getD_ge _ _ i (by rw [hlen]; exact hi)
  · intro h2
    have hval : ∀ i, i < min block.length fadeSampleCap →
        (fadeBlock block).getD i 0
          = block.getD i 0
              * (1 - (i : ℚ)
                  / (((min block.length fadeSampleCap : ℕ) : ℚ) - 1)) := by
      intro i hi
      unfold fadeBlock
      rw [fadeMul_getD_lt _ _ i (by rw [hlen]; exact hi)
            (lt_of_lt_of_le hi hfsle)]
      rw [linspace_getD 1 0 _ i hi h2]
      ring_nf
    refine ⟨hval, ?_, ?_⟩
    · rw [hval 0 (by omega)]
      norm_num
    · rw [hval (min block.length fadeSampleCap - 1) (by omega)]
      have h1le : 1 ≤ min block.length fadeSampleCap := by omega
      have hcast : ((min block.length fadeSampleCap - 1 : ℕ) : ℚ)
          = ((min block.length fadeSampleCap : ℕ) : ℚ) - 1 := by
        push_cast [h1le]
        ring
      rw [hcast]
      have h2q : (2 : ℚ) ≤ ((min block.length fadeSampleCap : ℕ) : ℚ) := by
        exact_mod_cast h2
      have hne : ((min block.length fadeSampleCap : ℕ) : ℚ) - 1 ≠ 0 := by
        intro hzero
        rw [sub_eq_zero] at hzero
        rw [hzero] at h2q
        norm_num at h2q
      rw [div_self hne]
      ring
  · intro h1
    unfold fadeBlock
    have hls : linspace 1 0 1 = [1] := by simp [linspace]
    rw [h1, hls]
    cases block with
    | nil => simp at h1
    | cons b bs =>
      cases bs with
      | nil => simp [fadeMul]
      | cons b2 bs2 => simp [fadeMul]

/-- Witness for C2 at a three-sample chunk: the last faded sample is zeroed
and the length is preserved. -/
theorem C2_fade_curve_witness :
    (fadeBlock [4, 4, 4]).getD 2 0 = (4 : ℚ) * 0
    ∧ (fadeBlock [4, 4, 4]).length = 3 := by
  have h := C2_fade_curve [4, 4, 4]
  have hmin : min (List.length [(4 : ℚ), 4, 4]) fadeSampleCap = 3 := by
    norm_num [fadeSampleCap, SAMPLE_RATE, FADE_OUT_MS]
  have h3 := h.2.2.1 (by rw [hmin]; norm_num)
  have hend := h3.2.2
  rw [hmin] at hend
  exact ⟨hend, h.1⟩

theorem workerChunks_cancel_first (cAt : Nat → Bool) :
    ∀ (chunks : List (List ℚ)) (k j : Nat), j < chunks.length →
      (chunks.getD j []).length ≠ 0 → cAt (k + j) = true →
      (∀ i, i < j → (chunks.getD i []).length = 0 ∨ cAt (k + i) = false) →
      workerChunks cAt k (chunks.map GenItem.chunk)
        = ((chunks.take j).filter (fun c => !c.isEmpty)
            ++ [fadeBlock (chunks.getD j [])], false) := by
  intro chunks
  induction chunks with
  | nil =>
    intro k j hj _ _ _
    simp at hj
  | cons c rest ih =>
    intro k j hj hne hcA hmin
    simp only [List.map_cons, workerChunks]
    cases j with
    | zero =>
      simp only [List.getD_cons_zero] at hne ⊢
      rw [Nat.add_zero] at hcA
      rw [if_neg hne, if_pos hcA]
      rfl
    | succ n =>
      have h0 := hmin 0 (Nat.succ_pos n)
      rw [Nat.add_zero] at h0
      simp only [List.getD_cons_zero] at h0
      simp only [List.getD_cons_succ] at hne ⊢
      simp only [List.take_succ_cons]
      have harg : k + 1 + n = k + (n + 1) := by omega
      have ih' := ih (k + 1) n (by simpa using hj) hne
        (by rw [harg]; exact hcA)
        (fun i hi => by
          have hmi := hmin (i + 1) (by omega)
          simp only [List.getD_cons_succ] at hmi
          have harg2 : k + 1 + i = k + (i + 1) := by omega
          rw [harg2]
          exact hmi)
      by_cases hc : c.length = 0
      · rw [if_pos hc, ih']
        have hce : c = [] := List.length_eq_zero.mp hc
        subst hce
        simp
      · have hcf : ¬cAt k = true := by
          rcases h0 with h0 | h0
          · exact absurd h0 hc
          · simp [h0]
        have hcne : c.isEmpty = false := by
          cases c
          · exact absurd rfl hc
          · rfl
        rw [if_neg hc, if_neg hcf, ih']
        simp [fade_and_write, List.filter, hcne]

/-- C3: a playback worker writes, in order: the lead-in unmodified iff one
was supplied and is non-empty; every non-empty chunk unmodified while the
token is unobserved (empty chunks are skipped without a write); and on the
first non-empty chunk at which the token is observed set, exactly one faded
chunk, after which it pulls no further chunks and terminates. -/
theorem C3_worker_sequence :
    (∀ (l : List ℚ) (items : List GenItem) (cAt : Nat → Bool), 0 < l.length →
        workerRun (some l) items cAt
          = (l :: (workerChunks cAt 0 items).1, (workerChunks cAt 0 items).2))
    ∧ (∀ (items : List GenItem) (cAt : Nat → Bool),
        workerRun (some []) items cAt = workerRun none items cAt)
    ∧ (∀ (chunks : List (List ℚ)) (k : Nat),
        workerChunks (fun _ => false) k (chunks.map GenItem.chunk)
          = (chunks.filter (fun c => !c.isEmpty), false))
    ∧ (∀ (chunks : List (List ℚ)) (cAt : Nat → Bool) (k j : Nat),
        j < chunks.length →
        (chunks.getD j []).length ≠ 0 → cAt (k + j) = true →
        (∀ i, i < j → (chunks.getD i []).length = 0 ∨ cAt (k + i) = false) →
        workerChunks cAt k (chunks.map GenItem.chunk)
          = ((chunks.take j).filter (fun c => !c.isEmpty)
              ++ [fadeBlock (chunks.getD j [])], false)) := by
  refine ⟨fun l items cAt hl => workerRun_some l items cAt hl,
          fun items cAt => (workerRun_some_nil items cAt).trans
            (workerRun_none items cAt).symm,
          fun chunks k => workerChunks_uncanceled chunks k,
          fun chunks cAt k j hj hne hcA hmin =>
            workerChunks_cancel_first cAt chunks k j hj hne hcA hmin⟩

/-- Witness for C3: lead-in `[5]`, chunks `[1]`, `[]`, `[2,2,2]`, `[9]`, the
token observed set from iteration 2 on: the worker writes the lead-in, the
first chunk unmodified, then one faded chunk, and stops. -/
theorem C3_worker_sequence_witness :
    workerRun (some [5])
        [GenItem.chunk [1], GenItem.chunk [], GenItem.chunk [2, 2, 2],
         GenItem.chunk [9]] (fun i => decide (2 ≤ i))
      = ([[5], [1], fadeBlock [2, 2, 2]], false) := by
  obtain ⟨h1, -, -, h4⟩ := C3_worker_sequence
  rw [h1 [5] _ _ (by norm_num)]
  have hmin : ∀ i, i < 2 →
      (([[1], [], [2, 2, 2], [9]] : List (List ℚ)).getD i []).length = 0
        ∨ (fun i => decide (2 ≤ i)) (0 + i) = false := by
    intro i hi
    interval_cases i
    · right
      rfl
    · left
      rfl
  have h := h4 [[1], [], [2, 2, 2], [9]] (fun i => decide (2 ≤ i)) 0 2
    (by norm_num) (by norm_num) rfl hmin
  have hmap : ([[1], [], [2, 2, 2], [9]] : List (List ℚ)).map GenItem.chunk
      = [GenItem.chunk [1], GenItem.chunk [], GenItem.chunk [2, 2, 2],
         GenItem.chunk [9]] := rfl
  rw [hmap] at h
  rw [h]
  rfl

theorem workerChunks_raise_stops (cAt : Nat → Bool) :
    ∀ (pre post : List GenItem) (k : Nat),
      workerChunks cAt k (pre ++ GenItem.raiseErr :: post)
        = workerChunks cAt k (pre ++ [GenItem.raiseErr]) := by
  intro pre
  induction pre with
  | nil =>
    intro post k
    rfl
  | cons itm rest ih =>
    intro post k
    cases itm with
    | raiseErr => rfl
    | chunk c =>
      simp only [List.cons_append, workerChunks]
      by_cases hc : c.length = 0
      · rw [if_pos hc, if_pos hc]
        exact ih post (k + 1)
      · rw [if_neg hc, if_neg hc]
        by_cases hca : cAt k = true
        · rw [if_pos hca, if_pos hca]
        · rw [if_neg hca, if_neg hca]
          have h := ih post (k + 1)
          simp only [List.append_eq] at h ⊢
          rw [h]

theorem buildPrefixCache_filterMap (synth : String → Except String (List ℚ)) :
    ∀ phrases : List String,
      buildPrefixCache synth phrases
        = phrases.filterMap (fun q =>
            match synth q with
            | Except.ok arr => some (q, truncateChunk arr)
            | Except.error _ => none) := by
  intro phrases
  induction phrases with
  | nil => rfl
  | cons p rest ih =>
    simp only [buildPrefixCache, List.filterMap_cons]
    cases hsp : synth p with
    | ok arr => simp [ih]
    | error e => simp [ih]

theorem buildPrefixCache_lookup_ok (synth : String → Except String (List ℚ))
    (phrases : List String) (p : String) (arr : List ℚ)
    (hp : p ∈ phrases) (hs : synth p = Except.ok arr) :
    (buildPrefixCache synth phrases).lookup p = some (truncateChunk arr) := by
  induction phrases with
  | nil => simp at hp
  | cons q rest ih =>
    by_cases hqp : q = p
    · subst hqp
      simp only [buildPrefixCache, hs]
      simp [List.lookup]
    · have hmem : p ∈ rest := by
        rcases List.mem_cons.mp hp with heq | hmem
        · exact absurd heq.symm hqp
        · exact hmem
      simp only [buildPrefixCache]
      cases hsq : synth q with
      | ok arrq =>
        have hbeq : (p == q) = false :=
          beq_eq_false_iff_ne.mpr (fun h => hqp h.symm)
        simp [List.lookup, hbeq, ih hmem]
      | error e => exact ih hmem

theorem buildPrefixCache_lookup_error (synth : String → Except String (List ℚ))
    (phrases : List String) (p : String) (e : String)
    (hs : synth p = Except.error e) :
    (buildPrefixCache synth phrases).lookup p = none := by
  induction phrases with
  | nil => rfl
  | cons q rest ih =>
    by_cases hqp : q = p
    · subst hqp
      simp only [buildPrefixCache, hs]
      exact ih
    · simp only [buildPrefixCache]
      cases hsq : synth q with
      | ok arrq =>
        have hbeq : (p == q) = false :=
          beq_eq_false_iff_ne.mpr (fun h => hqp h.symm)
        simp [List.lookup, hbeq, ih]
      | error e2 => exact ih

/-- C7: the only fatal condition is the missing shared-memory backing
object, raised by the startup check before the loop; every per-sample,
per-phrase and per-utterance failure is contained: a `ValueError` sample is
a no-op iteration, a generator exception ends only that worker (everything
after the raise is unreachable, and the worker still returns its writes so
far), and the prefix-cache build always yields a partial map, never an
error.  All embedded loop operations (`mainStep`, `workerChunks`,
`buildPrefixCache`) are total functions: the main loop never raises. -/
theorem C7_error_containment :
    (startup false = Except.error "Shared memory not found"
      ∧ startup true = Except.ok ())
    ∧ (∀ st now, mainStep st now ParseOutcome.valueError = (st, []))
    ∧ (∀ (cAt : Nat → Bool) (pre post : List GenItem) (k : Nat),
        workerChunks cAt k (pre ++ GenItem.raiseErr :: post)
          = workerChunks cAt k (pre ++ [GenItem.raiseErr]))
    ∧ (∀ (synth : String → Except String (List ℚ)) (phrases : List String),
        buildPrefixCache synth phrases
          = phrases.filterMap (fun q =>
              match synth q with
              | Except.ok arr => some (q, truncateChunk arr)
              | Except.error _ => none)
        ∧ (buildPrefixCache synth phrases).length ≤ phrases.length) := by
  refine ⟨⟨rfl, rfl⟩, fun st now => rfl,
          fun cAt pre post k => workerChunks_raise_stops cAt pre post k,
          fun synth phrases => ⟨buildPrefixCache_filterMap synth phrases, ?_⟩⟩
  rw [buildPrefixCache_filterMap synth phrases]
  exact List.length_filterMap_le _ _

/-- C9: building the prefix cache is a total function of the per-phrase
synthesis outcomes; a phrase whose synthesis succeeds is cached under its
own text with its first chunk truncated to 2400 samples, a phrase whose
synthesis fails is simply absent from the cache, and a failing phrase does
not affect how the remaining phrases are processed. -/
theorem C9_prefix_cache :
    (∀ (synth : String → Except String (List ℚ)) (phrases : List String)
        (p : String) (arr : List ℚ), p ∈ phrases → synth p = Except.ok arr →
        (buildPrefixCache synth phrases).lookup p = some (truncateChunk arr))
    ∧ (∀ (synth : String → Except String (List ℚ)) (phrases : List String)
        (p : String) (e : String), synth p = Except.error e →
        (buildPrefixCache synth phrases).lookup p = none)
    ∧ (∀ (synth : String → Except String (List ℚ)) (p : String)
        (rest : List String) (e : String), synth p = Except.error e →
        buildPrefixCache synth (p :: rest) = buildPrefixCache synth rest)
    ∧ (∀ (arr : List ℚ), (truncateChunk arr).length = min arr.length 2400) := by
  refine ⟨fun synth phrases p arr hp hs =>
            buildPrefixCache_lookup_ok synth phrases p arr hp hs,
          fun synth phrases p e hs =>
            buildPrefixCache_lookup_error synth phrases p e hs,
          fun synth p rest e hs => by simp only [buildPrefixCache, hs],
          fun arr => by
            simp [truncateChunk]⟩

/-- Witness for C9 on the real phrase list: synthesis failing only for
`"up to"` leaves it absent while `"down to"` is cached truncated. -/
theorem C9_prefix_cache_witness :
    (buildPrefixCache
        (fun s => if s = "up to" then Except.error "boom" else Except.ok [1, 2])
        PREFIX_PHRASES).lookup "up to" = none
    ∧ (buildPrefixCache
        (fun s => if s = "up to" then Except.error "boom" else Except.ok [1, 2])
        PREFIX_PHRASES).lookup "down to" = some (truncateChunk [1, 2]) := by
  obtain ⟨hok, herr, -, -⟩ := C9_prefix_cache
  refine ⟨herr _ PREFIX_PHRASES "up to" "boom" (by simp),
          hok _ PREFIX_PHRASES "down to" [1, 2] (by simp [PREFIX_PHRASES])
            (by simp)⟩

end TTS
